import Mathlib

/-!
Verification of the deep-search agent core (response parser, workspace
memory store, tool dispatch, and agent control loop) against its source.
The agent core is the Python code embedded in
`deepseek-search-agent/README.md` and in the notebook stored at
`.github/workflows/enhanced_search.yml`; both copies carry the same
definitions of `extract_json_values`, `extract_largest_json`, `Workspace`
and `Agent`.  Text is modelled as `List Char` (`LC`), matching Python
strings as sequences of characters.  JSON parsing models
`json.JSONDecoder.raw_decode` in its default strict mode; serialisation
models `json.dumps` with its default separators and `ensure_ascii=True`.

Documented approximations, none of which is reachable from any statement
proved below: non-integer numeric literals are kept as their source lexeme
(`JsonVal.numF`) instead of an IEEE float, so re-serialisation of a float
uses the lexeme rather than Python `repr`; a lone surrogate `\uXXXX`
escape decodes through `Char.ofNat` (Lean characters cannot hold lone
surrogates); Python's degenerate iteration of a non-list value (a string
iterates its characters) is collapsed into a single failure case; and a
non-string JSON value stored into a string-typed slot (status, answer,
block content, tool name or input) is rendered through its JSON dump.
-/

abbrev LC := List Char

def lc (s : String) : LC := s.toList

/-- JSON values as produced by Python's `json` decoder: `None`, booleans,
integers, non-integer numbers (kept as their lexeme), strings, lists and
insertion-ordered dicts. -/
inductive JsonVal where
  | null : JsonVal
  | bool (b : Bool) : JsonVal
  | num (i : Int) : JsonVal
  | numF (lex : LC) : JsonVal
  | str (s : LC) : JsonVal
  | arr (xs : List JsonVal) : JsonVal
  | obj (kvs : List (LC × JsonVal)) : JsonVal

def hexDigitChar (n : Nat) : Char :=
  if n < 10 then Char.ofNat (48 + n) else Char.ofNat (87 + n % 16)

def escCode (n : Nat) : LC :=
  ['\\', 'u', hexDigitChar (n / 4096 % 16), hexDigitChar (n / 256 % 16),
   hexDigitChar (n / 16 % 16), hexDigitChar (n % 16)]

/-- One character of `json.dumps` output with `ensure_ascii=True`:
printable ASCII is kept, the two-character escapes of the JSON grammar are
used where they exist, everything else becomes a `\uXXXX` escape (a
surrogate pair for astral code points). -/
def dumpsChar (c : Char) : LC :=
  if c = '"' then ['\\', '"']
  else if c = '\\' then ['\\', '\\']
  else if c = '\n' then ['\\', 'n']
  else if c = '\t' then ['\\', 't']
  else if c = '\r' then ['\\', 'r']
  else if c.toNat = 8 then ['\\', 'b']
  else if c.toNat = 12 then ['\\', 'f']
  else if 32 ≤ c.toNat ∧ c.toNat ≤ 126 then [c]
  else if c.toNat < 65536 then escCode c.toNat
  else escCode (55296 + (c.toNat - 65536) / 1024) ++ escCode (56320 + (c.toNat - 65536) % 1024)

def dumpsStr (s : LC) : LC :=
  '"' :: (s.map dumpsChar).flatten ++ ['"']

def intDecimal (i : Int) : LC :=
  lc (toString i)

mutual

/-- `json.dumps` with the default separators `', '` and `': '`, used by
`extract_largest_json` only through the length of its output. -/
def jsonDumps : JsonVal → LC
  | .null => lc ("null")
  | .bool true => lc ("true")
  | .bool false => lc ("false")
  | .num i => intDecimal i
  | .numF lex => lex
  | .str s => dumpsStr s
  | .arr xs => '[' :: jsonDumpsElems xs ++ [']']
  | .obj kvs => '{' :: jsonDumpsMembers kvs ++ ['}']

def jsonDumpsElems : List JsonVal → LC
  | [] => []
  | [x] => jsonDumps x
  | x :: y :: rest => jsonDumps x ++ [',', ' '] ++ jsonDumpsElems (y :: rest)

def jsonDumpsMembers : List (LC × JsonVal) → LC
  | [] => []
  | [(k, v)] => dumpsStr k ++ [':', ' '] ++ jsonDumps v
  | (k, v) :: m :: rest => dumpsStr k ++ [':', ' '] ++ jsonDumps v ++ [',', ' '] ++ jsonDumpsMembers (m :: rest)

end

def jsonWs (c : Char) : Bool := c = ' ' ∨ c = '\t' ∨ c = '\n' ∨ c = '\r'

def skipWs : LC → LC
  | [] => []
  | c :: rest => if jsonWs c then skipWs rest else c :: rest

def isDig (c : Char) : Bool := '0' ≤ c ∧ c ≤ '9'

def hexVal (c : Char) : Option Nat :=
  if '0' ≤ c ∧ c ≤ '9' then some (c.toNat - 48)
  else if 'a' ≤ c ∧ c ≤ 'f' then some (c.toNat - 87)
  else if 'A' ≤ c ∧ c ≤ 'F' then some (c.toNat - 55)
  else none

def escChar (c : Char) : Option Char :=
  if c = '"' then some '"'
  else if c = '\\' then some '\\'
  else if c = '/' then some '/'
  else if c = 'b' then some (Char.ofNat 8)
  else if c = 'f' then some (Char.ofNat 12)
  else if c = 'n' then some '\n'
  else if c = 'r' then some '\r'
  else if c = 't' then some '\t'
  else none

/-- Body of a JSON string after its opening quote, as in Python's strict
`scanstring`: raw control characters are rejected, the eight short escapes
and `\uXXXX` (with surrogate-pair combination) are decoded, anything else
after a backslash is rejected.  Returns the decoded content and the text
after the closing quote.  The fuel argument is instantiated with the input
length, which one consumed character per step makes sufficient. -/
def parseStringRest : Nat → LC → Option (LC × LC)
  | 0, _ => none
  | _ + 1, [] => none
  | fuel + 1, c :: rest =>
    if c = '"' then some ([], rest)
    else if c = '\\' then
      match rest with
      | [] => none
      | 'u' :: h1 :: h2 :: h3 :: h4 :: rest3 =>
        match hexVal h1, hexVal h2, hexVal h3, hexVal h4 with
        | some a, some b, some cc, some d =>
          let n := 4096 * a + 256 * b + 16 * cc + d
          match rest3 with
          | '\\' :: 'u' :: g1 :: g2 :: g3 :: g4 :: rest4 =>
            match hexVal g1, hexVal g2, hexVal g3, hexVal g4 with
            | some a', some b', some c', some d' =>
              let m := 4096 * a' + 256 * b' + 16 * c' + d'
              if 55296 ≤ n ∧ n ≤ 56319 ∧ 56320 ≤ m ∧ m ≤ 57343 then
                (parseStringRest fuel rest4).map
                  (fun (cs, rem) => (Char.ofNat (65536 + (n - 55296) * 1024 + (m - 56320)) :: cs, rem))
              else
                (parseStringRest fuel rest3).map (fun (cs, rem) => (Char.ofNat n :: cs, rem))
            | _, _, _, _ =>
              (parseStringRest fuel rest3).map (fun (cs, rem) => (Char.ofNat n :: cs, rem))
          | _ =>
            (parseStringRest fuel rest3).map (fun (cs, rem) => (Char.ofNat n :: cs, rem))
        | _, _, _, _ => none
      | e :: rest2 =>
        match escChar e with
        | some ch => (parseStringRest fuel rest2).map (fun (cs, rem) => (ch :: cs, rem))
        | none => none
    else if c.toNat < 32 then none
    else (parseStringRest fuel rest).map (fun (cs, rem) => (c :: cs, rem))

def natOfDigits (ds : LC) : Nat :=
  ds.foldl (fun acc c => 10 * acc + (c.toNat - 48)) 0

/-- Continuation of the JSON number grammar after the integer part: the
optional fraction `.digits` and exponent `[eE][+-]?digits` groups of
Python's NUMBER_RE.  A number with neither group is an `int`; otherwise
the matched lexeme is kept as a float literal. -/
def parseNumTail (neg : Bool) (intDs : LC) (rest : LC) : Option (JsonVal × LC) :=
  let fracPart : Option (LC × LC) := match rest with
    | '.' :: r =>
      let ds := r.takeWhile isDig
      if ds.isEmpty then none else some (ds, r.dropWhile isDig)
    | _ => none
  let afterFrac := match fracPart with
    | some (_, r) => r
    | none => rest
  let expPart : Option (LC × LC) := match afterFrac with
    | e :: r =>
      if e = 'e' ∨ e = 'E' then
        let (sgn, r2) := match r with
          | '+' :: rr => (['+'], rr)
          | '-' :: rr => (['-'], rr)
          | _ => (([] : LC), r)
        let ds := r2.takeWhile isDig
        if ds.isEmpty then none else some (e :: sgn ++ ds, r2.dropWhile isDig)
      else none
    | [] => none
  let afterExp := match expPart with
    | some (_, r) => r
    | none => afterFrac
  match fracPart, expPart with
  | none, none =>
    let v : Int := Int.ofNat (natOfDigits intDs)
    some (.num (if neg then -v else v), rest)
  | _, _ =>
    let lex : LC := (if neg then ['-'] else []) ++ intDs ++
      (match fracPart with | some (ds, _) => '.' :: ds | none => []) ++
      (match expPart with | some (es, _) => es | none => [])
    some (.numF lex, afterExp)

/-- The integer part of Python's NUMBER_RE, `-?(0|[1-9][0-9]*)`: a leading
zero is matched alone, so `01` decodes as the value `0` with `1` left
over, exactly as `raw_decode` behaves. -/
def parseNumber (s : LC) : Option (JsonVal × LC) :=
  let (neg, s1) := match s with
    | '-' :: r => (true, r)
    | _ => (false, s)
  match s1 with
  | [] => none
  | c :: r1 =>
    if c = '0' then
      parseNumTail neg [c] r1
    else if isDig c then
      parseNumTail neg (c :: r1.takeWhile isDig) (r1.dropWhile isDig)
    else none

/-- Insertion into a Python dict: replace the value in place if the key
exists, append otherwise. -/
def dictInsert (kvs : List (LC × JsonVal)) (k : LC) (v : JsonVal) : List (LC × JsonVal) :=
  if kvs.any (fun kv => kv.1 == k) then
    kvs.map (fun kv => if kv.1 == k then (kv.1, v) else kv)
  else kvs ++ [(k, v)]

def mkDict (pairs : List (LC × JsonVal)) : List (LC × JsonVal) :=
  pairs.foldl (fun acc kv => dictInsert acc kv.1 kv.2) []

mutual

/-- One JSON value starting at the head of the input with no leading
whitespace allowed, following Python's `scan_once`: string, object, array,
the literals, then the number grammar and the `NaN` and infinity
constants.  Fuel only bounds nesting and is instantiated generously. -/
def parseValue : Nat → LC → Option (JsonVal × LC)
  | 0, _ => none
  | fuel + 1, s =>
    match s with
    | '{' :: r =>
      match skipWs r with
      | '}' :: r1 => some (.obj [], r1)
      | '"' :: r1 => parseMembers fuel [] r1
      | _ => none
    | '[' :: r =>
      match skipWs r with
      | ']' :: r1 => some (.arr [], r1)
      | r' => parseElements fuel [] r'
    | '"' :: r => (parseStringRest (r.length + 1) r).map (fun (cs, rem) => (.str cs, rem))
    | 'n' :: 'u' :: 'l' :: 'l' :: r => some (.null, r)
    | 't' :: 'r' :: 'u' :: 'e' :: r => some (.bool true, r)
    | 'f' :: 'a' :: 'l' :: 's' :: 'e' :: r => some (.bool false, r)
    | 'N' :: 'a' :: 'N' :: r => some (.numF (lc ("NaN")), r)
    | 'I' :: 'n' :: 'f' :: 'i' :: 'n' :: 'i' :: 't' :: 'y' :: r => some (.numF (lc ("Infinity")), r)
    | '-' :: 'I' :: 'n' :: 'f' :: 'i' :: 'n' :: 'i' :: 't' :: 'y' :: r => some (.numF (lc ("-Infinity")), r)
    | _ => parseNumber s

/-- Members of a JSON object, entered just after the opening quote of a
key, as in Python's `JSONObject`: key string, optional whitespace, colon,
optional whitespace, value, then either a closing brace or a comma,
whitespace and the next key's opening quote.  Duplicate keys collapse via
`mkDict` as `dict(pairs)` does. -/
def parseMembers : Nat → List (LC × JsonVal) → LC → Option (JsonVal × LC)
  | 0, _, _ => none
  | fuel + 1, acc, s =>
    match parseStringRest (s.length + 1) s with
    | none => none
    | some (key, r1) =>
      match skipWs r1 with
      | ':' :: r3 =>
        match parseValue fuel (skipWs r3) with
        | none => none
        | some (v, r5) =>
          match skipWs r5 with
          | '}' :: r7 => some (.obj (mkDict (acc ++ [(key, v)])), r7)
          | ',' :: r7 =>
            match skipWs r7 with
            | '"' :: r9 => parseMembers fuel (acc ++ [(key, v)]) r9
            | _ => none
          | _ => none
      | _ => none

/-- Elements of a JSON array after the opening bracket and any leading
whitespace, as in Python's `JSONArray`: value, optional whitespace, then a
closing bracket or a comma and more whitespace. -/
def parseElements : Nat → List JsonVal → LC → Option (JsonVal × LC)
  | 0, _, _ => none
  | fuel + 1, acc, s =>
    match parseValue fuel s with
    | none => none
    | some (v, r1) =>
      match skipWs r1 with
      | ']' :: r3 => some (.arr (acc ++ [v]), r3)
      | ',' :: r3 => parseElements fuel (acc ++ [v]) (skipWs r3)
      | _ => none

end

/-- `json.JSONDecoder().raw_decode`: parse one complete JSON value at
position 0 and return it with the unconsumed text.  Every nesting level
consumes at least one character through at most two fuelled calls, so
`2 * length + 2` fuel never runs out on real input. -/
def rawDecode (s : LC) : Option (JsonVal × LC) := parseValue (2 * s.length + 2) s

def isOpenBracket (c : Char) : Bool := c = '{' ∨ c = '['

/-- The generator loop of `extract_json_values`: walk the text; at each
occurrence of an opening brace or bracket attempt `raw_decode` from that
position, yielding the value and resuming after its last consumed
character on success, or advancing one character on failure.  Walking
character by character is equivalent to the source's `str.find` jumps;
fuel is the input length, and each step drops at least one character. -/
def extract_json_values_fuel : Nat → LC → List JsonVal
  | 0, _ => []
  | _ + 1, [] => []
  | fuel + 1, c :: rest =>
    if isOpenBracket c then
      match rawDecode (c :: rest) with
      | some (v, rem) => v :: extract_json_values_fuel fuel rem
      | none => extract_json_values_fuel fuel rest
    else extract_json_values_fuel fuel rest

def extract_json_values (s : LC) : List JsonVal := extract_json_values_fuel s.length s

/-- Python's `max(json_values, key=...)`: keep the current maximum and
replace it only on a strictly greater key, so the first maximal element
wins ties. -/
def pickLargest (h : JsonVal) (t : List JsonVal) : JsonVal :=
  t.foldl (fun best x => if (jsonDumps best).length < (jsonDumps x).length then x else best) h

/-- `extract_largest_json`: collect the scanned values and return the one
whose `json.dumps` form is longest, or raise `No JSON found in response`
when nothing was collected. -/
def extract_largest_json (s : LC) : Except LC JsonVal :=
  match extract_json_values s with
  | [] => .error (lc ("No JSON found in response"))
  | v :: vs => .ok (pickLargest v vs)

def thinkClose : LC := lc ("</think>")

/-- Text after the first occurrence of the closing think tag, or `none`
when the tag does not occur. -/
def afterThink : LC → Option LC
  | [] => none
  | c :: rest =>
    if thinkClose.isPrefixOf (c :: rest) then some (List.drop 7 rest)
    else afterThink rest

def stripThinkFuel : Nat → LC → LC
  | 0, s => s
  | fuel + 1, s =>
    match afterThink s with
    | none => s
    | some t => stripThinkFuel fuel t

/-- The reasoning-markup strip in `Agent.run`:
`re.sub(r"(?:<think>)?.*?</think>", "", response, flags=re.DOTALL)`.
Whenever the text still contains the closing tag, the leftmost match of
that pattern spans from the current position to the end of the first
closing tag (the lazy `.*?` with DOTALL reaches the first tag from any
start, and the optional opening tag lies inside that span), so the
substitution is exactly: repeatedly delete through the first closing tag.
Each deletion removes at least eight characters, so input-length fuel
suffices. -/
def stripThink (s : LC) : LC := stripThinkFuel s.length s

/-- The agent workspace state: `{"status": ..., "blocks": {...},
"answer": ...}` with the dict of blocks kept in insertion order. -/
structure Workspace where
  status : LC
  blocks : List (LC × LC)
  answer : Option LC
deriving DecidableEq

def Workspace.init : Workspace := ⟨lc ("IN_PROGRESS"), [], none⟩

/-- `Workspace.to_string`: the status line, the memory header, then the
placeholder line for an empty store or one `<id>content</id>` line per
block. -/
def Workspace.to_string (ws : Workspace) : LC :=
  lc ("Status: ") ++ ws.status ++ lc ("\nMemory: \n") ++
    (if ws.blocks.isEmpty then lc ("... no memory blocks ...\n")
     else (ws.blocks.map (fun kv =>
       '<' :: kv.1 ++ '>' :: kv.2 ++ lc ("</") ++ kv.1 ++ lc (">\n"))).flatten)

def Workspace.is_done (ws : Workspace) : Bool := ws.status ≠ lc ("IN_PROGRESS")

def asciiLowercase : LC := lc ("abcdefghijklmnopqrstuvwxyz")

def asciiDigits : LC := lc ("0123456789")

/-- One candidate block id: three draws from the lowercase alphabet, a
hyphen, three draws from the digits.  The random generator is modelled as
a stream of naturals consumed six at a time, each draw indexing into the
alphabet as `random.choices` does. -/
def mkCand (rng : Nat → Nat) (i : Nat) : LC :=
  [asciiLowercase.getD (rng i % 26) 'a',
   asciiLowercase.getD (rng (i + 1) % 26) 'a',
   asciiLowercase.getD (rng (i + 2) % 26) 'a',
   '-',
   asciiDigits.getD (rng (i + 3) % 10) '0',
   asciiDigits.getD (rng (i + 4) % 10) '0',
   asciiDigits.getD (rng (i + 5) % 10) '0']

def blockKeys (blocks : List (LC × LC)) : List LC := blocks.map (fun kv => kv.1)

/-- `Workspace._generate_unique_block_id`: draw candidates until one is
not already a block id.  The source loops unconditionally; termination
against an adversarial random stream is not provable, so the model
carries fuel and returns the id together with the next stream index. -/
def generate_unique_block_id (rng : Nat → Nat) : Nat → List (LC × LC) → Nat → Option (LC × Nat)
  | 0, _, _ => none
  | fuel + 1, blocks, i =>
    let newId := mkCand rng i
    if (blockKeys blocks).contains newId then generate_unique_block_id rng fuel blocks (i + 6)
    else some (newId, i + 6)

/-- Failures inside `Workspace.update_blocks`: iterating a value that is
not a list of operations (`TypeError` on `None` and the collapsed
degenerate iterables), calling `.get` on a non-dict operation
(`AttributeError`), or id-generation fuel running out (the source would
spin forever). -/
inductive UpdateErr where
  | memoryNotIterable : UpdateErr
  | opNotDict : UpdateErr
  | idGenFuel : UpdateErr
deriving DecidableEq

def jlookup (kvs : List (LC × JsonVal)) (k : LC) : Option JsonVal :=
  match kvs with
  | [] => none
  | kv :: rest => if kv.1 == k then some kv.2 else jlookup rest k

def strOrDumps : JsonVal → LC
  | .str s => s
  | v => jsonDumps v

def deleteKey (blocks : List (LC × LC)) (k : LC) : List (LC × LC) :=
  blocks.filter (fun kv => kv.1 ≠ k)

/-- One iteration of the block-operation loop in
`Workspace.update_blocks`: an `add` stores the (defaulted) content under a
fresh id, a `delete` removes the block when its id is present and is
silent otherwise, any other or missing operation is ignored. -/
def applyBlockOp (rng : Nat → Nat) (fuel : Nat) (blocks : List (LC × LC)) (i : Nat)
    (op : JsonVal) : Except UpdateErr (List (LC × LC) × Nat) :=
  match op with
  | .obj kvs =>
    match jlookup kvs (lc ("operation")) with
    | some (.str o) =>
      if o = lc ("add") then
        match generate_unique_block_id rng fuel blocks i with
        | some (newId, i') =>
          let content := match jlookup kvs (lc ("content")) with
            | some (.str s) => s
            | none => []
            | some v => jsonDumps v
          .ok (blocks ++ [(newId, content)], i')
        | none => .error .idGenFuel
      else if o = lc ("delete") then
        match jlookup kvs (lc ("id")) with
        | some (.str bid) =>
          if (blockKeys blocks).contains bid then .ok (deleteKey blocks bid, i)
          else .ok (blocks, i)
        | _ => .ok (blocks, i)
      else .ok (blocks, i)
    | _ => .ok (blocks, i)
  | _ => .error .opNotDict

/-- The block-operation loop.  A failing operation stops the loop and
keeps the mutations already applied, as an exception in the Python `for`
loop would. -/
def applyBlockOps (rng : Nat → Nat) (fuel : Nat) :
    List JsonVal → List (LC × LC) → Nat → List (LC × LC) × Nat × Option UpdateErr
  | [], blocks, i => (blocks, i, none)
  | op :: rest, blocks, i =>
    match applyBlockOp rng fuel blocks i op with
    | .ok (blocks', i') => applyBlockOps rng fuel rest blocks' i'
    | .error e => (blocks, i, some e)

/-- `Workspace.update_blocks`: the status is assigned first, then the
operations are iterated, then the answer is stored when one was provided.
A failure while iterating keeps the status assignment and the partial
block mutations and skips the answer, mirroring an exception thrown out
of the method body after its first statement. -/
def Workspace.update_blocks (rng : Nat → Nat) (fuel : Nat) (ws : Workspace) (status : LC)
    (memoryUpdates : Option JsonVal) (answer : Option LC) (i : Nat) :
    Workspace × Nat × Option UpdateErr :=
  let ws1 : Workspace := { ws with status := status }
  match memoryUpdates with
  | some (.arr ops) =>
    match applyBlockOps rng fuel ops ws1.blocks i with
    | (blocks', i', some e) => ({ ws1 with blocks := blocks' }, i', some e)
    | (blocks', i', none) =>
      let ws2 : Workspace := { ws1 with blocks := blocks' }
      match answer with
      | some a => ({ ws2 with answer := some a }, i', none)
      | none => (ws2, i', none)
  | _ => (ws1, i, some .memoryNotIterable)

/-- Truthiness of the parsed value, for the `assert response_json` line:
Python's falsy values among the JSON results are `None`, `False`, zero,
and empty strings, lists and dicts.  A float literal is modelled truthy
(the zero-float edge is unreachable from every statement below). -/
def isFalsy : JsonVal → Bool
  | .null => true
  | .bool b => !b
  | .num i => i = 0
  | .numF _ => false
  | .str s => s.isEmpty
  | .arr xs => xs.isEmpty
  | .obj kvs => kvs.isEmpty

structure ToolRecord where
  tool : LC
  input : LC
  output : LC
deriving DecidableEq

/-- `Agent.run_tool`: the two known tools are invoked through external
capabilities modelled as oracles (an `Except` result models a raised
exception and carries its message); any exception, including the
assertion failure `Illegal tool: <name>` for an unknown tool name, is
caught and turned into the output text `Tool execution failed: <e>`. -/
def runTool (search : LC → Except LC LC) (scrape : LC → LC → Except LC LC)
    (toolId : LC) (toolInput : LC) (context : LC) : LC :=
  if toolId = lc ("search") then
    match search toolInput with
    | .ok out => out
    | .error e => lc ("Tool execution failed: ") ++ e
  else if toolId = lc ("scrape") then
    match scrape toolInput context with
    | .ok out => out
    | .error e => lc ("Tool execution failed: ") ++ e
  else lc ("Tool execution failed: Illegal tool: ") ++ toolId

/-- Extraction of `(call["tool"], call["input"])` from every entry of the
`tool_calls` value; a missing key (`KeyError`), a non-dict entry or a
non-list `tool_calls` value is the `TypeError` that aborts the round
while building the task list. -/
def getCalls : JsonVal → Except Unit (List (LC × LC))
  | .arr xs =>
    xs.mapM (fun x =>
      match x with
      | .obj kvs =>
        match jlookup kvs (lc ("tool")), jlookup kvs (lc ("input")) with
        | some tv, some iv => .ok (strOrDumps tv, strOrDumps iv)
        | _, _ => .error ()
      | _ => .error ())
  | _ => .error ()

/-- The fan-out over `tool_calls` followed by
`[{**call, "output": output} for call, output in zip(...)]`:
`asyncio.gather` returns outputs in task order, so each record pairs a
call with its own output by position. -/
def dispatchTools (search : LC → Except LC LC) (scrape : LC → LC → Except LC LC)
    (task : LC) (calls : List (LC × LC)) : List ToolRecord :=
  calls.map (fun c => ⟨c.1, c.2, runTool search scrape c.1 c.2 task⟩)

/-- The ways the body of one `Agent.run` round can raise before its tool
records are assigned. -/
inductive RoundErr where
  | noJson : RoundErr
  | falsyJson : RoundErr
  | notDict : RoundErr
  | update (e : UpdateErr) : RoundErr
  | missingToolCalls : RoundErr
  | badToolCalls : RoundErr
deriving DecidableEq

/-- `response_json.get("status_update", "IN_PROGRESS")` as the string
stored into the workspace status. -/
def statusOf (kvs : List (LC × JsonVal)) : LC :=
  match jlookup kvs (lc ("status_update")) with
  | some (.str s) => s
  | some v => jsonDumps v
  | none => lc ("IN_PROGRESS")

/-- `response_json.get("answer", None)`: a JSON `null` maps to Python
`None` and is therefore not stored, like an absent key. -/
def answerOf (kvs : List (LC × JsonVal)) : Option LC :=
  match jlookup kvs (lc ("answer")) with
  | some .null => none
  | some (.str s) => some s
  | some v => some (jsonDumps v)
  | none => none

/-- One attempt of the `try` body of `Agent.run`, entered with the model's
response text: strip reasoning markup, extract the largest JSON value,
assert its truthiness, apply `update_blocks` (which happens before the
`tool_calls` check), assert the `tool_calls` key, and dispatch the calls.
The returned workspace reflects every mutation made before a failure,
since the source mutates `self.workspace` in place and the `except`
branch keeps it. -/
def runRound (rng : Nat → Nat) (fuel : Nat) (search : LC → Except LC LC)
    (scrape : LC → LC → Except LC LC) (task : LC) (ws : Workspace) (resp : LC) (i : Nat) :
    (Workspace × Nat) × Except RoundErr (List ToolRecord) :=
  let cleaned := stripThink resp
  match extract_largest_json cleaned with
  | .error _ => ((ws, i), .error .noJson)
  | .ok j =>
    if isFalsy j then ((ws, i), .error .falsyJson)
    else
      match j with
      | .obj kvs =>
        match Workspace.update_blocks rng fuel ws (statusOf kvs)
            (jlookup kvs (lc ("memory_updates"))) (answerOf kvs) i with
        | (ws', i', some e) => ((ws', i'), .error (.update e))
        | (ws', i', none) =>
          match jlookup kvs (lc ("tool_calls")) with
          | none => ((ws', i'), .error .missingToolCalls)
          | some tc =>
            match getCalls tc with
            | .error _ => ((ws', i'), .error .badToolCalls)
            | .ok calls => ((ws', i'), .ok (dispatchTools search scrape task calls))
      | _ => ((ws, i), .error .notDict)

/-- The loop state of `Agent.run`: the workspace, the records carried to
the next prompt, the counter of successfully completed rounds, and the
position in the random stream. -/
structure AgentState where
  workspace : Workspace
  toolRecords : Option (List ToolRecord)
  round : Nat
  rngIdx : Nat
deriving DecidableEq

def AgentState.init : AgentState := ⟨Workspace.init, none, 0, 0⟩

/-- `if max_rounds and self.round > max_rounds`: `None` and `0` are falsy,
and the counter must strictly exceed the configured limit. -/
def roundLimitHit (maxRounds : Option Nat) (round : Nat) : Bool :=
  match maxRounds with
  | some m => decide (0 < m) && decide (m < round)
  | none => false

/-- The `while True` loop of `Agent.run`.  The model oracle is a stream of
response texts indexed by attempt number (the prompt built from the
workspace and prior records is folded into that oracle).  A failed
attempt keeps the mutated workspace, leaves the prior tool records and
the round counter unchanged, and retries; a successful attempt stores the
new records, increments the counter, and applies the three stop checks in
source order.  Fuel bounds the number of attempts, since the source may
retry forever. -/
def runLoop (rng : Nat → Nat) (fuel : Nat) (search : LC → Except LC LC)
    (scrape : LC → LC → Except LC LC) (task : LC) (responses : Nat → LC) :
    Nat → Nat → AgentState → Bool → Option Nat → Option AgentState
  | 0, _, _, _, _ => none
  | loopFuel + 1, attempt, st, loop, maxRounds =>
    let ((ws', i'), res) := runRound rng fuel search scrape task st.workspace (responses attempt) st.rngIdx
    match res with
    | .error _ =>
      runLoop rng fuel search scrape task responses loopFuel (attempt + 1)
        { st with workspace := ws', rngIdx := i' } loop maxRounds
    | .ok recs =>
      let st' : AgentState := ⟨ws', some recs, st.round + 1, i'⟩
      if roundLimitHit maxRounds st'.round then some st'
      else if !loop then some st'
      else if ws'.is_done then some st'
      else runLoop rng fuel search scrape task responses loopFuel (attempt + 1) st' loop maxRounds


/-! Concrete fixtures used by witnesses and counterexamples: an identity
random stream, oracles that always succeed, and model responses taken
from the shapes the prompt requests. -/

def rng0 : Nat → Nat := fun n => n

def search0 : LC → Except LC LC := fun _ => .ok (lc ("result"))

def scrape0 : LC → LC → Except LC LC := fun _ _ => .ok (lc ("page"))

def respGood : LC := lc ("\x7b\"memory_updates\": [], \"tool_calls\": []\x7d")

def respNoTC : LC := lc ("\x7b\"status_update\": \"DONE\", \"memory_updates\": [], \"answer\": \"42\"\x7d")

def respNoMem : LC := lc ("\x7b\"tool_calls\": []\x7d")

def respDefaults : LC :=
  lc ("\x7b\"memory_updates\": [], \"tool_calls\": [\x7b\"tool\": \"search\", \"input\": \"q\"\x7d]\x7d")

def exC1 : LC := lc ("blah \x7b\"a\":1\x7d more \x7b\"a\":1,\"b\":2\x7d tail")

def objA : JsonVal := .obj [(lc ("a"), .num 1)]

def objAB : JsonVal := .obj [(lc ("a"), .num 1), (lc ("b"), .num 2)]

/-- C6: `to_string` of an empty Workspace is exactly the documented text,
and a Workspace holding one block with id `xyz-999` and content `hello`
renders that block as the line `<xyz-999>hello</xyz-999>`, whatever the
status and answer are. -/
theorem claim_C6 :
    Workspace.to_string Workspace.init = lc ("Status: IN_PROGRESS\nMemory: \n... no memory blocks ...\n") ∧
    ∀ (status : LC) (answer : Option LC),
      Workspace.to_string ⟨status, [(lc ("xyz-999"), lc ("hello"))], answer⟩ =
        lc ("Status: ") ++ status ++ lc ("\nMemory: \n<xyz-999>hello</xyz-999>\n") := by
  refine ⟨rfl, ?_⟩
  intro status answer
  show (lc ("Status: ") ++ status ++ lc ("\nMemory: \n")) ++ _ = _
  rw [List.append_assoc, List.append_assoc]
  rfl

theorem contains_eq_false_iff (l : List LC) (a : LC) : l.contains a = false ↔ a ∉ l := by
  simp [List.contains]

def deleteOpJ (bid : LC) : JsonVal :=
  .obj [(lc ("operation"), .str (lc ("delete"))), (lc ("id"), .str bid)]

/-- C7: applying a delete operation whose id is not present leaves the
Workspace exactly as it was, including its `to_string` rendering. -/
theorem claim_C7 (rng : Nat → Nat) (fuel : Nat) (ws : Workspace) (bid : LC) (i : Nat)
    (h : bid ∉ blockKeys ws.blocks) :
    Workspace.update_blocks rng fuel ws ws.status (some (.arr [deleteOpJ bid])) none i =
      (ws, i, none) ∧
    Workspace.to_string (Workspace.update_blocks rng fuel ws ws.status
      (some (.arr [deleteOpJ bid])) none i).1 = Workspace.to_string ws := by
  have hc : (blockKeys ws.blocks).contains bid = false := (contains_eq_false_iff _ _).mpr h
  have hmain : Workspace.update_blocks rng fuel ws ws.status (some (.arr [deleteOpJ bid])) none i =
      (ws, i, none) := by
    simp [Workspace.update_blocks, applyBlockOps, applyBlockOp, deleteOpJ, jlookup, lc, hc, h]
  exact ⟨hmain, by rw [hmain]⟩

theorem claim_C7_witness :
    Workspace.update_blocks rng0 5 ⟨lc ("IN_PROGRESS"), [(lc ("abc-123"), lc ("x"))], none⟩
      (lc ("IN_PROGRESS")) (some (.arr [deleteOpJ (lc ("zzz-000"))])) none 0 =
      (⟨lc ("IN_PROGRESS"), [(lc ("abc-123"), lc ("x"))], none⟩, 0, none) ∧
    Workspace.to_string (Workspace.update_blocks rng0 5
      ⟨lc ("IN_PROGRESS"), [(lc ("abc-123"), lc ("x"))], none⟩
      (lc ("IN_PROGRESS")) (some (.arr [deleteOpJ (lc ("zzz-000"))])) none 0).1 =
      Workspace.to_string ⟨lc ("IN_PROGRESS"), [(lc ("abc-123"), lc ("x"))], none⟩ :=
  claim_C7 rng0 5 ⟨lc ("IN_PROGRESS"), [(lc ("abc-123"), lc ("x"))], none⟩ (lc ("zzz-000")) 0
    (by decide)

/-- C4 counterexample: a parsed response with `tool_calls` present but
`memory_updates`, `status_update` and `answer` absent does not succeed:
`update_blocks` receives `None` for the operations and the round fails
with the not-iterable error before any tool is dispatched. -/
theorem claim_C4_counterexample :
    (runRound rng0 5 search0 scrape0 [] Workspace.init respNoMem 0).2 =
      .error (.update .memoryNotIterable) := by rfl

/-- C4 amended: with `tool_calls` present and `memory_updates` present as
an empty array, a response in which `status_update` and `answer` are
absent is a valid round with the documented defaults: the status becomes
`IN_PROGRESS`, the blocks and the answer are unchanged, and the round's
tool calls are dispatched. -/
theorem claim_C4 (rng : Nat → Nat) (fuel : Nat) (search : LC → Except LC LC)
    (scrape : LC → LC → Except LC LC) (task : LC) (ws : Workspace) (i : Nat) :
    runRound rng fuel search scrape task ws respDefaults i =
      (({ ws with status := lc ("IN_PROGRESS") }, i),
       .ok [⟨lc ("search"), lc ("q"), runTool search scrape (lc ("search")) (lc ("q")) task⟩]) := by
  rfl

/-- C2 counterexample: a parsed response without `tool_calls` does fail
the round, but the workspace is NOT left unchanged: the status, memory
and answer mutations of that response are applied before the failed
`tool_calls` assertion, so the initial workspace ends up with status
`DONE` and answer `42`. -/
theorem claim_C2_counterexample :
    runRound rng0 5 search0 scrape0 [] Workspace.init respNoTC 0 =
      ((⟨lc ("DONE"), [], some (lc ("42"))⟩, 0), .error .missingToolCalls) ∧
    (⟨lc ("DONE"), [], some (lc ("42"))⟩ : Workspace) ≠ Workspace.init :=
  ⟨rfl, by decide⟩

/-- C2 amended: when the parsed response lacks `tool_calls` (with its
`memory_updates` a list whose operations apply cleanly), the round is a
failure and is retried, but the workspace is not rolled back: the status,
the block operations and the answer from the failed response are already
applied when the failure is raised. -/
theorem claim_C2 (rng : Nat → Nat) (fuel : Nat) (search : LC → Except LC LC)
    (scrape : LC → LC → Except LC LC) (task : LC) (ws : Workspace) (resp : LC) (i : Nat)
    (kvs : List (LC × JsonVal)) (ops : List JsonVal) (blocks' : List (LC × LC)) (i'' : Nat)
    (h1 : extract_largest_json (stripThink resp) = .ok (.obj kvs))
    (h2 : jlookup kvs (lc ("tool_calls")) = none)
    (h3 : jlookup kvs (lc ("memory_updates")) = some (.arr ops))
    (h4 : applyBlockOps rng fuel ops ws.blocks i = (blocks', i'', none)) :
    runRound rng fuel search scrape task ws resp i =
      ((⟨statusOf kvs, blocks',
         match answerOf kvs with
         | some a => some a
         | none => ws.answer⟩, i''),
       .error .missingToolCalls) := by
  have hne : kvs ≠ [] := by
    intro e
    subst e
    simp [jlookup] at h3
  have hf : isFalsy (.obj kvs) = false := by
    cases kvs with
    | nil => exact absurd rfl hne
    | cons a l => rfl
  have hupd : Workspace.update_blocks rng fuel ws (statusOf kvs)
      (jlookup kvs (lc ("memory_updates"))) (answerOf kvs) i =
      (⟨statusOf kvs, blocks',
        match answerOf kvs with
        | some a => some a
        | none => ws.answer⟩, i'', none) := by
    rw [h3]
    simp only [Workspace.update_blocks, h4]
    cases answerOf kvs with
    | some a => rfl
    | none => rfl
  simp only [runRound, h1, hf, hupd, h2]
  simp

def respC2W : LC :=
  lc ("\x7b\"memory_updates\": [\x7b\"operation\": \"add\", \"content\": \"note\"\x7d], \"status_update\": \"PAUSED\"\x7d")

theorem claim_C2_witness :
    runRound rng0 5 search0 scrape0 [] Workspace.init respC2W 0 =
      ((⟨lc ("PAUSED"), [(lc ("abc-345"), lc ("note"))], none⟩, 6),
       .error .missingToolCalls) :=
  claim_C2 rng0 5 search0 scrape0 [] Workspace.init respC2W 0
    [(lc ("memory_updates"),
      .arr [.obj [(lc ("operation"), .str (lc ("add"))), (lc ("content"), .str (lc ("note")))]]),
     (lc ("status_update"), .str (lc ("PAUSED")))]
    [.obj [(lc ("operation"), .str (lc ("add"))), (lc ("content"), .str (lc ("note")))]]
    [(lc ("abc-345"), lc ("note"))] 6 rfl rfl rfl rfl

/-- C3 counterexample: with `maxRounds = 2`, a looping agent whose model
responds with a valid never-`DONE` payload on every attempt stops only
after round 3, because the source breaks on `round > max_rounds`, not
`round = max_rounds`. -/
theorem claim_C3_counterexample :
    (runLoop rng0 5 search0 scrape0 [] (fun _ => respGood) 3 0 AgentState.init true (some 2)).map
      (fun st => st.round) = some 3 := by rfl

/-- A response whose parsed object is a non-empty dict with status absent
or `IN_PROGRESS`, `memory_updates` an empty array, and a well-formed
`tool_calls` entry: such a response makes any round succeed without
finishing the task. -/
def goodResp (r : LC) : Bool :=
  match extract_largest_json (stripThink r) with
  | .ok (.obj kvs) =>
    !kvs.isEmpty &&
    (match jlookup kvs (lc ("status_update")) with
     | none => true
     | some (.str s) => s == lc ("IN_PROGRESS")
     | some _ => false) &&
    (match jlookup kvs (lc ("memory_updates")) with
     | some (.arr []) => true
     | _ => false) &&
    (match jlookup kvs (lc ("tool_calls")) with
     | some tc =>
       match getCalls tc with
       | .ok _ => true
       | .error _ => false
     | none => false)
  | _ => false

theorem runRound_good (r : LC) (h : goodResp r = true) (rng : Nat → Nat) (fuel : Nat)
    (search : LC → Except LC LC) (scrape : LC → LC → Except LC LC) (task : LC)
    (ws : Workspace) (i : Nat) :
    ∃ ws' recs, runRound rng fuel search scrape task ws r i = ((ws', i), .ok recs) ∧
      ws'.is_done = false := by
  unfold goodResp at h
  revert h
  cases hx : extract_largest_json (stripThink r) with
  | error e => intro h; exact absurd h (by simp)
  | ok j =>
    cases j with
    | obj kvs =>
      intro h
      simp only [Bool.and_eq_true] at h
      obtain ⟨⟨⟨hne, hst⟩, hmem⟩, htc⟩ := h
      have hf : isFalsy (.obj kvs) = false := by
        cases kvs with
        | nil => simp at hne
        | cons a l => rfl
      have hstat : statusOf kvs = lc ("IN_PROGRESS") := by
        unfold statusOf
        revert hst
        cases hs : jlookup kvs (lc ("status_update")) with
        | none => intro _; rfl
        | some v =>
          cases v with
          | str s =>
            intro hst
            exact eq_of_beq hst
          | null => intro hst; exact absurd hst (by simp)
          | bool b => intro hst; exact absurd hst (by simp)
          | num n => intro hst; exact absurd hst (by simp)
          | numF l => intro hst; exact absurd hst (by simp)
          | arr xs => intro hst; exact absurd hst (by simp)
          | obj o => intro hst; exact absurd hst (by simp)
      have hm : jlookup kvs (lc ("memory_updates")) = some (.arr []) := by
        revert hmem
        cases hmm : jlookup kvs (lc ("memory_updates")) with
        | none => intro hmem; exact absurd hmem (by simp)
        | some v =>
          cases v with
          | arr xs =>
            cases xs with
            | nil => intro _; rfl
            | cons a l => intro hmem; exact absurd hmem (by simp)
          | null => intro hmem; exact absurd hmem (by simp)
          | bool b => intro hmem; exact absurd hmem (by simp)
          | num n => intro hmem; exact absurd hmem (by simp)
          | numF l => intro hmem; exact absurd hmem (by simp)
          | str s => intro hmem; exact absurd hmem (by simp)
          | obj o => intro hmem; exact absurd hmem (by simp)
      revert htc
      cases htcc : jlookup kvs (lc ("tool_calls")) with
      | none => intro htc; exact absurd htc (by simp)
      | some tc =>
        intro htc
        replace htc : (match getCalls tc with
          | .ok _ => true
          | .error _ => false) = true := htc
        revert htc
        cases hgc : getCalls tc with
        | error e => intro htc; exact absurd htc (by simp)
        | ok calls =>
          intro _
          have hupd : Workspace.update_blocks rng fuel ws (statusOf kvs)
              (jlookup kvs (lc ("memory_updates"))) (answerOf kvs) i =
              (⟨statusOf kvs, ws.blocks,
                match answerOf kvs with
                | some a => some a
                | none => ws.answer⟩, i, none) := by
            rw [hm]
            simp only [Workspace.update_blocks, applyBlockOps]
            cases answerOf kvs with
            | some a => rfl
            | none => rfl
          refine ⟨⟨statusOf kvs, ws.blocks,
            match answerOf kvs with
            | some a => some a
            | none => ws.answer⟩, dispatchTools search scrape task calls, ?_, ?_⟩
          · simp only [runRound, hx, hf, hupd, htcc, hgc]
            simp
          · simp [Workspace.is_done, hstat]
    | null => intro h; exact absurd h (by simp)
    | bool b => intro h; exact absurd h (by simp)
    | num n => intro h; exact absurd h (by simp)
    | numF l => intro h; exact absurd h (by simp)
    | str s => intro h; exact absurd h (by simp)
    | arr xs => intro h; exact absurd h (by simp)

theorem runLoop_good (rng : Nat → Nat) (fuel : Nat) (search : LC → Except LC LC)
    (scrape : LC → LC → Except LC LC) (task : LC) (responses : Nat → LC)
    (hr : ∀ k, goodResp (responses k) = true) (m : Nat) (hm : 0 < m) :
    ∀ loopFuel attempt st, st.round + loopFuel = m + 1 → st.round ≤ m →
    ∃ fin, runLoop rng fuel search scrape task responses loopFuel attempt st true (some m) =
      some fin ∧ fin.round = m + 1 := by
  intro loopFuel
  induction loopFuel with
  | zero =>
    intro attempt st h1 h2
    omega
  | succ lf ih =>
    intro attempt st h1 h2
    obtain ⟨ws', recs, heq, hdone⟩ :=
      runRound_good (responses attempt) (hr attempt) rng fuel search scrape task
        st.workspace st.rngIdx
    by_cases hlast : st.round = m
    · have hlim : roundLimitHit (some m) (st.round + 1) = true := by
        simp [roundLimitHit]
        omega
      refine ⟨⟨ws', some recs, st.round + 1, st.rngIdx⟩, ?_, by show st.round + 1 = m + 1; omega⟩
      simp only [runLoop, heq, hlim]
      rfl
    · have hlt : st.round < m := by omega
      have hlim : roundLimitHit (some m) (st.round + 1) = false := by
        simp [roundLimitHit]
        omega
      obtain ⟨fin, hfin, hround⟩ := ih (attempt + 1) ⟨ws', some recs, st.round + 1, st.rngIdx⟩
        (by show st.round + 1 + lf = m + 1; omega) (by show st.round + 1 ≤ m; omega)
      refine ⟨fin, ?_, hround⟩
      simp only [runLoop, heq, hlim, hdone]
      simpa using hfin

/-- C3 amended: with a configured round limit `m > 0`, a looping agent
whose every attempt succeeds without reporting `DONE` stops after exactly
`m + 1` rounds, one more than the configured limit, because the source
stops only when the incremented round counter strictly exceeds
`max_rounds`. -/
theorem claim_C3 (rng : Nat → Nat) (fuel : Nat) (search : LC → Except LC LC)
    (scrape : LC → LC → Except LC LC) (task : LC) (responses : Nat → LC) (m : Nat)
    (hr : ∀ k, goodResp (responses k) = true) (hm : 0 < m) :
    ∃ fin, runLoop rng fuel search scrape task responses (m + 1) 0 AgentState.init
      true (some m) = some fin ∧ fin.round = m + 1 :=
  runLoop_good rng fuel search scrape task responses hr m hm (m + 1) 0 AgentState.init
    (by simp [AgentState.init]) (by simp [AgentState.init])

theorem claim_C3_witness :
    ∃ fin, runLoop rng0 5 search0 scrape0 [] (fun _ => respGood) 3 0 AgentState.init
      true (some 2) = some fin ∧ fin.round = 3 :=
  claim_C3 rng0 5 search0 scrape0 [] (fun _ => respGood) 2 (fun _ => by rfl) (by decide)

/-- C9: an unknown tool name is confined to its own call.  `run_tool`
catches the failed assertion and returns `Tool execution failed: Illegal
tool: <name>` as that call's output; the dispatch produces exactly one
record per issued call, associated by position, with each record carrying
its own call's tool, input and output; and a round whose calls were
extracted reaches a successful result whatever the tool names are. -/
theorem claim_C9 :
    (∀ (search : LC → Except LC LC) (scrape : LC → LC → Except LC LC)
       (tid tin ctx : LC), tid ≠ lc ("search") → tid ≠ lc ("scrape") →
       runTool search scrape tid tin ctx = lc ("Tool execution failed: Illegal tool: ") ++ tid) ∧
    (∀ (search : LC → Except LC LC) (scrape : LC → LC → Except LC LC)
       (task : LC) (calls : List (LC × LC)),
       (dispatchTools search scrape task calls).length = calls.length ∧
       ∀ (k : Nat) (hk : k < calls.length) (hk' : k < (dispatchTools search scrape task calls).length),
         ((dispatchTools search scrape task calls).get ⟨k, hk'⟩).tool = (calls.get ⟨k, hk⟩).1 ∧
         ((dispatchTools search scrape task calls).get ⟨k, hk'⟩).input = (calls.get ⟨k, hk⟩).2 ∧
         ((dispatchTools search scrape task calls).get ⟨k, hk'⟩).output =
           runTool search scrape (calls.get ⟨k, hk⟩).1 (calls.get ⟨k, hk⟩).2 task) ∧
    (∀ (rng : Nat → Nat) (fuel : Nat) (search : LC → Except LC LC)
       (scrape : LC → LC → Except LC LC) (task : LC) (ws : Workspace) (resp : LC) (i : Nat)
       (kvs : List (LC × JsonVal)) (ws' : Workspace) (i'' : Nat) (tc : JsonVal)
       (calls : List (LC × LC)),
       extract_largest_json (stripThink resp) = .ok (.obj kvs) →
       isFalsy (.obj kvs) = false →
       Workspace.update_blocks rng fuel ws (statusOf kvs)
         (jlookup kvs (lc ("memory_updates"))) (answerOf kvs) i = (ws', i'', none) →
       jlookup kvs (lc ("tool_calls")) = some tc →
       getCalls tc = .ok calls →
       runRound rng fuel search scrape task ws resp i =
         ((ws', i''), .ok (dispatchTools search scrape task calls))) := by
  refine ⟨?_, ?_, ?_⟩
  · intro search scrape tid tin ctx h1 h2
    simp [runTool, h1, h2]
  · intro search scrape task calls
    refine ⟨by simp [dispatchTools], ?_⟩
    intro k hk hk'
    simp [dispatchTools, List.getElem_map]
  · intro rng fuel search scrape task ws resp i kvs ws' i'' tc calls h1 h2 h3 h4 h5
    simp only [runRound, h1, h2, h3, h4, h5]
    simp

theorem claim_C9_witness :
    runTool search0 scrape0 (lc ("wget")) (lc ("u")) [] =
      lc ("Tool execution failed: Illegal tool: ") ++ lc ("wget") ∧
    (dispatchTools search0 scrape0 [] [(lc ("wget"), lc ("u")), (lc ("search"), lc ("q"))]).length = 2 ∧
    ((dispatchTools search0 scrape0 [] [(lc ("wget"), lc ("u")), (lc ("search"), lc ("q"))]).get
      ⟨0, by decide⟩).output =
      runTool search0 scrape0 (lc ("wget")) (lc ("u")) [] ∧
    runRound rng0 5 search0 scrape0 [] Workspace.init
      (lc ("\x7b\"memory_updates\": [], \"tool_calls\": [\x7b\"tool\": \"wget\", \"input\": \"u\"\x7d]\x7d")) 0 =
      ((⟨lc ("IN_PROGRESS"), [], none⟩, 0),
       .ok (dispatchTools search0 scrape0 [] [(lc ("wget"), lc ("u"))])) := by
  refine ⟨claim_C9.1 search0 scrape0 (lc ("wget")) (lc ("u")) [] (by decide) (by decide),
          (claim_C9.2.1 search0 scrape0 [] [(lc ("wget"), lc ("u")), (lc ("search"), lc ("q"))]).1,
          ((claim_C9.2.1 search0 scrape0 [] [(lc ("wget"), lc ("u")), (lc ("search"), lc ("q"))]).2
            0 (by decide) (by decide)).2.2,
          claim_C9.2.2 rng0 5 search0 scrape0 [] Workspace.init _ 0
            [(lc ("memory_updates"), .arr []),
             (lc ("tool_calls"), .arr [.obj [(lc ("tool"), .str (lc ("wget"))), (lc ("input"), .str (lc ("u")))]])]
            ⟨lc ("IN_PROGRESS"), [], none⟩ 0
            (.arr [.obj [(lc ("tool"), .str (lc ("wget"))), (lc ("input"), .str (lc ("u")))]])
            [(lc ("wget"), lc ("u"))] rfl rfl rfl rfl rfl⟩

def isLowerAZ (c : Char) : Bool := 'a' ≤ c ∧ c ≤ 'z'

/-- The shape `[a-z][a-z][a-z]-[0-9][0-9][0-9]` of a generated block id. -/
def matchesPat : LC → Bool
  | [a, b, c, d, e, f, g] =>
    isLowerAZ a && isLowerAZ b && isLowerAZ c && (d = '-') && isDig e && isDig f && isDig g
  | _ => false

theorem lower_getD (m : Nat) (hm : m < 26) : isLowerAZ (asciiLowercase.getD m 'a') = true := by
  revert hm
  revert m
  decide

theorem digit_getD (m : Nat) (hm : m < 10) : isDig (asciiDigits.getD m '0') = true := by
  revert hm
  revert m
  decide

theorem mkCand_matches (rng : Nat → Nat) (i : Nat) : matchesPat (mkCand rng i) = true := by
  simp only [mkCand, matchesPat, Bool.and_eq_true]
  refine ⟨⟨⟨⟨⟨⟨?_, ?_⟩, ?_⟩, by decide⟩, ?_⟩, ?_⟩, ?_⟩
  all_goals first
    | exact lower_getD _ (Nat.mod_lt _ (by decide))
    | exact digit_getD _ (Nat.mod_lt _ (by decide))

theorem contains_iff_mem (l : List LC) (a : LC) : l.contains a = true ↔ a ∈ l := by
  simp [List.contains]

/-- Characterisation of `_generate_unique_block_id`: a returned id is not
among the existing block ids, matches the generated pattern, and is the
first candidate of the stream that is fresh — every earlier candidate
collided with an existing id and was regenerated. -/
theorem generate_unique_block_id_spec (rng : Nat → Nat) :
    ∀ (fuel : Nat) (blocks : List (LC × LC)) (i : Nat) (nid : LC) (i' : Nat),
    generate_unique_block_id rng fuel blocks i = some (nid, i') →
    nid ∉ blockKeys blocks ∧ matchesPat nid = true ∧
    ∃ k, nid = mkCand rng (i + 6 * k) ∧
      ∀ j, j < k → mkCand rng (i + 6 * j) ∈ blockKeys blocks := by
  intro fuel
  induction fuel with
  | zero => intro blocks i nid i' h; exact absurd h (by simp [generate_unique_block_id])
  | succ f ih =>
    intro blocks i nid i' h
    simp only [generate_unique_block_id] at h
    by_cases hc : (blockKeys blocks).contains (mkCand rng i) = true
    · rw [if_pos hc] at h
      obtain ⟨hnm, hpat, k', hk', hcoll⟩ := ih blocks (i + 6) nid i' h
      refine ⟨hnm, hpat, k' + 1, ?_, ?_⟩
      · rw [show i + 6 * (k' + 1) = i + 6 + 6 * k' from by ring]
        exact hk'
      · intro j hj
        cases j with
        | zero =>
          simpa using (contains_iff_mem _ _).mp hc
        | succ j' =>
          rw [show i + 6 * (j' + 1) = i + 6 + 6 * j' from by ring]
          exact hcoll j' (by omega)
    · rw [if_neg hc] at h
      injection h with h'
      injection h' with h1 h2
      subst h1
      refine ⟨?_, mkCand_matches rng i, 0, by simp, by omega⟩
      intro hmem
      exact hc ((contains_iff_mem _ _).mpr hmem)

/-- The invariant of the block store: ids are pairwise distinct and every
id matches the generated pattern. -/
def blocksInvariant (bs : List (LC × LC)) : Prop :=
  (blockKeys bs).Nodup ∧ ∀ k ∈ blockKeys bs, matchesPat k = true

theorem blockKeys_append (bs : List (LC × LC)) (x : LC) (y : LC) :
    blockKeys (bs ++ [(x, y)]) = blockKeys bs ++ [x] := by
  simp [blockKeys]

theorem blockKeys_deleteKey (bs : List (LC × LC)) (bid : LC) :
    blockKeys (deleteKey bs bid) = (blockKeys bs).filter (fun k => k ≠ bid) := by
  induction bs with
  | nil => rfl
  | cons kv rest ih =>
    by_cases h : kv.1 = bid
    · simp [deleteKey, blockKeys, h] at *
      exact ih
    · simp [deleteKey, blockKeys, h] at *
      exact ih

theorem applyBlockOp_inv (rng : Nat → Nat) (fuel : Nat) (bs : List (LC × LC)) (i : Nat)
    (op : JsonVal) (bs' : List (LC × LC)) (i' : Nat) (hinv : blocksInvariant bs)
    (h : applyBlockOp rng fuel bs i op = .ok (bs', i')) : blocksInvariant bs' := by
  cases op with
  | obj kvs =>
    simp only [applyBlockOp] at h
    split at h
    case h_2 => injection h with h'; injection h' with e1 e2; subst e1; exact hinv
    case h_1 o heq =>
      split at h
      · -- add branch
        split at h
        case h_2 => exact absurd h (by simp)
        case h_1 newId i2 hp =>
          injection h with h'
          injection h' with e1 e2
          obtain ⟨hnm, hpat, _⟩ :=
            generate_unique_block_id_spec rng fuel bs i newId i2 hp
          subst e1
          constructor
          · rw [blockKeys_append, List.nodup_append]
            refine ⟨hinv.1, List.nodup_singleton _, ?_⟩
            intro a ha1 ha2
            rw [List.mem_singleton] at ha2
            subst ha2
            exact hnm ha1
          · intro k hk
            rw [blockKeys_append, List.mem_append] at hk
            cases hk with
            | inl hk1 => exact hinv.2 k hk1
            | inr hk2 =>
              rw [List.mem_singleton] at hk2
              subst hk2
              exact hpat
      · -- not add
        split at h
        · -- delete branch
          split at h
          case h_2 => injection h with h'; injection h' with e1 e2; subst e1; exact hinv
          case h_1 bid hbid =>
            split at h
            · injection h with h'
              injection h' with e1 e2
              subst e1
              constructor
              · rw [blockKeys_deleteKey]
                exact hinv.1.filter _
              · intro k hk
                rw [blockKeys_deleteKey, List.mem_filter] at hk
                exact hinv.2 k hk.1
            · injection h with h'; injection h' with e1 e2; subst e1; exact hinv
        · -- unrecognized operation
          injection h with h'; injection h' with e1 e2; subst e1; exact hinv
  | null => exact absurd h (by simp [applyBlockOp])
  | bool b => exact absurd h (by simp [applyBlockOp])
  | num n => exact absurd h (by simp [applyBlockOp])
  | numF l => exact absurd h (by simp [applyBlockOp])
  | str s => exact absurd h (by simp [applyBlockOp])
  | arr xs => exact absurd h (by simp [applyBlockOp])

theorem applyBlockOps_inv (rng : Nat → Nat) (fuel : Nat) :
    ∀ (ops : List JsonVal) (bs : List (LC × LC)) (i : Nat) (bs' : List (LC × LC)) (i' : Nat)
      (e : Option UpdateErr), blocksInvariant bs →
      applyBlockOps rng fuel ops bs i = (bs', i', e) → blocksInvariant bs' := by
  intro ops
  induction ops with
  | nil =>
    intro bs i bs' i' e hinv h
    simp only [applyBlockOps] at h
    injection h with e1 h'
    subst e1
    exact hinv
  | cons op rest ih =>
    intro bs i bs' i' e hinv h
    simp only [applyBlockOps] at h
    split at h
    case h_1 bs2 i2 hp =>
      exact ih bs2 i2 bs' i' e (applyBlockOp_inv rng fuel bs i op bs2 i2 hinv hp) h
    case h_2 err herr =>
      injection h with e1 h'
      subst e1
      exact hinv

theorem update_blocks_inv (rng : Nat → Nat) (fuel : Nat) (ws : Workspace) (status : LC)
    (mem : Option JsonVal) (ans : Option LC) (i : Nat)
    (hinv : blocksInvariant ws.blocks) :
    blocksInvariant (Workspace.update_blocks rng fuel ws status mem ans i).1.blocks := by
  simp only [Workspace.update_blocks]
  split
  case h_1 ops =>
    split
    case h_1 bs' i2 e heq =>
      exact applyBlockOps_inv rng fuel ops ws.blocks i bs' i2 (some e) hinv heq
    case h_2 bs' i2 heq =>
      have hb : blocksInvariant bs' :=
        applyBlockOps_inv rng fuel ops ws.blocks i bs' i2 none hinv heq
      split
      · exact hb
      · exact hb
  case h_2 v hv =>
    exact hinv

/-- C5: block ids are pairwise distinct and match the `abc-123` pattern at
all times — the empty Workspace satisfies the invariant, every single
block operation preserves it, every `update_blocks` call preserves it,
and a generated id is always the first candidate of the random stream
that does not collide with an existing id. -/
theorem claim_C5 :
    blocksInvariant Workspace.init.blocks ∧
    (∀ (rng : Nat → Nat) (fuel : Nat) (bs : List (LC × LC)) (i : Nat)
       (op : JsonVal) (bs' : List (LC × LC)) (i' : Nat), blocksInvariant bs →
       applyBlockOp rng fuel bs i op = .ok (bs', i') → blocksInvariant bs') ∧
    (∀ (rng : Nat → Nat) (fuel : Nat) (ws : Workspace) (status : LC)
       (mem : Option JsonVal) (ans : Option LC) (i : Nat), blocksInvariant ws.blocks →
       blocksInvariant (Workspace.update_blocks rng fuel ws status mem ans i).1.blocks) ∧
    (∀ (rng : Nat → Nat) (fuel : Nat) (blocks : List (LC × LC)) (i : Nat) (nid : LC) (i' : Nat),
       generate_unique_block_id rng fuel blocks i = some (nid, i') →
       nid ∉ blockKeys blocks ∧ matchesPat nid = true ∧
       ∃ k, nid = mkCand rng (i + 6 * k) ∧
         ∀ j, j < k → mkCand rng (i + 6 * j) ∈ blockKeys blocks) := by
  refine ⟨⟨by simp [Workspace.init, blockKeys], by simp [Workspace.init, blockKeys]⟩, ?_, ?_, ?_⟩
  · intro rng fuel bs i op bs' i' hinv h
    exact applyBlockOp_inv rng fuel bs i op bs' i' hinv h
  · intro rng fuel ws status mem ans i hinv
    exact update_blocks_inv rng fuel ws status mem ans i hinv
  · intro rng fuel blocks i nid i' h
    exact generate_unique_block_id_spec rng fuel blocks i nid i' h

theorem claim_C5_witness :
    blocksInvariant [(lc ("abc-123"), lc ("x")), (lc ("abc-345"), [])] ∧
    (lc ("abc-345") ∉ blockKeys [(lc ("abc-123"), lc ("x"))] ∧
     matchesPat (lc ("abc-345")) = true ∧
     ∃ k, lc ("abc-345") = mkCand rng0 (0 + 6 * k) ∧
       ∀ j, j < k → mkCand rng0 (0 + 6 * j) ∈ blockKeys [(lc ("abc-123"), lc ("x"))]) :=
  ⟨claim_C5.2.1 rng0 5 [(lc ("abc-123"), lc ("x"))] 0
     (.obj [(lc ("operation"), .str (lc ("add")))])
     [(lc ("abc-123"), lc ("x")), (lc ("abc-345"), [])] 6 ⟨by decide, by decide⟩ rfl,
   claim_C5.2.2.2 rng0 5 [(lc ("abc-123"), lc ("x"))] 0 (lc ("abc-345")) 6 rfl⟩

theorem pickLargest_spec : ∀ (t : List JsonVal) (h : JsonVal),
    pickLargest h t ∈ h :: t ∧
    ∀ u ∈ h :: t, (jsonDumps u).length ≤ (jsonDumps (pickLargest h t)).length := by
  intro t
  induction t with
  | nil =>
    intro h
    refine ⟨by simp [pickLargest], ?_⟩
    intro u hu
    rw [List.mem_singleton] at hu
    subst hu
    simp [pickLargest]
  | cons x xs ih =>
    intro h
    by_cases hlt : (jsonDumps h).length < (jsonDumps x).length
    · have e : pickLargest h (x :: xs) = pickLargest x xs := by
        simp only [pickLargest, List.foldl_cons, if_pos hlt]
      obtain ⟨ihm, ihmax⟩ := ih x
      refine ⟨by rw [e]; exact List.mem_cons_of_mem h ihm, ?_⟩
      intro u hu
      rw [e]
      rcases List.mem_cons.mp hu with hu1 | hu2
      · subst hu1
        exact le_trans (le_of_lt hlt) (ihmax x (List.mem_cons_self x xs))
      · exact ihmax u hu2
    · have e : pickLargest h (x :: xs) = pickLargest h xs := by
        simp only [pickLargest, List.foldl_cons, if_neg hlt]
      obtain ⟨ihm, ihmax⟩ := ih h
      refine ⟨?_, ?_⟩
      · rw [e]
        rcases List.mem_cons.mp ihm with hm1 | hm2
        · rw [hm1]; exact List.mem_cons_self h (x :: xs)
        · exact List.mem_cons_of_mem h (List.mem_cons_of_mem x hm2)
      · intro u hu
        rw [e]
        rcases List.mem_cons.mp hu with hu1 | hu2
        · subst hu1
          exact ihmax u (List.mem_cons_self u xs)
        · rcases List.mem_cons.mp hu2 with hx | hxs
          · subst hx
            exact le_trans (le_of_not_lt hlt) (ihmax h (List.mem_cons_self h xs))
          · exact ihmax u (List.mem_cons_of_mem h hxs)

/-- C1: whenever the parser returns a value, that value is one of the
scanned JSON values and its re-serialised form is longest by character
count among everything collected; on the documented example the two
objects are collected in order and the parser returns the second, larger
one rather than the first. -/
theorem claim_C1 :
    (∀ (text : LC) (v : JsonVal), extract_largest_json text = .ok v →
       v ∈ extract_json_values text ∧
       ∀ u ∈ extract_json_values text, (jsonDumps u).length ≤ (jsonDumps v).length) ∧
    extract_json_values exC1 = [objA, objAB] ∧
    extract_largest_json exC1 = .ok objAB ∧
    objAB ≠ objA := by
  refine ⟨?_, rfl, rfl, by simp [objA, objAB]⟩
  intro text v h
  unfold extract_largest_json at h
  revert h
  cases hv : extract_json_values text with
  | nil => intro h; exact absurd h (by simp)
  | cons w rest =>
    intro h
    injection h with h'
    subst h'
    exact pickLargest_spec rest w

theorem claim_C1_witness :
    objAB ∈ extract_json_values exC1 ∧
    ∀ u ∈ extract_json_values exC1, (jsonDumps u).length ≤ (jsonDumps objAB).length :=
  claim_C1.1 exC1 objAB rfl

theorem scan_empty_iff : ∀ (fuel : Nat), ∀ (text : LC), text.length ≤ fuel →
    (extract_json_values_fuel fuel text = [] ↔
     ∀ p, p < text.length → isOpenBracket (text.getD p ' ') = true →
       rawDecode (text.drop p) = none) := by
  intro fuel
  induction fuel with
  | zero =>
    intro text hlen
    have he : text = [] := List.eq_nil_of_length_eq_zero (Nat.le_zero.mp hlen)
    subst he
    simp [extract_json_values_fuel]
  | succ f ih =>
    intro text hlen
    cases text with
    | nil => simp [extract_json_values_fuel]
    | cons c rest =>
      have hlen' : rest.length ≤ f := by simpa using hlen
      by_cases hbr : isOpenBracket c = true
      · cases hdec : rawDecode (c :: rest) with
        | some p =>
          constructor
          · intro habs
            simp [extract_json_values_fuel, hbr, hdec] at habs
          · intro hall
            have h0 := hall 0 (by simp) (by simpa using hbr)
            rw [List.drop_zero, hdec] at h0
            exact absurd h0 (by simp)
        | none =>
          have e : extract_json_values_fuel (f + 1) (c :: rest) = extract_json_values_fuel f rest := by
            simp [extract_json_values_fuel, hbr, hdec]
          rw [e, ih rest hlen']
          constructor
          · intro hall p hp hb
            cases p with
            | zero =>
              simpa using hdec
            | succ q =>
              rw [List.drop_succ_cons]
              exact hall q (by simpa using hp) (by simpa using hb)
          · intro hall p hp hb
            have := hall (p + 1) (by simpa using hp) (by simpa using hb)
            rw [List.drop_succ_cons] at this
            exact this
      · have e : extract_json_values_fuel (f + 1) (c :: rest) = extract_json_values_fuel f rest := by
          simp [extract_json_values_fuel, hbr]
        rw [e, ih rest hlen']
        constructor
        · intro hall p hp hb
          cases p with
          | zero =>
            rw [List.getD_cons_zero] at hb
            exact absurd hb hbr
          | succ q =>
            rw [List.drop_succ_cons]
            exact hall q (by simpa using hp) (by simpa using hb)
        · intro hall p hp hb
          have := hall (p + 1) (by simpa using hp) (by simpa using hb)
          rw [List.drop_succ_cons] at this
          exact this

/-- C8 counterexample: on the input `1` the parser fails with the
no-JSON-found error even though a substring of the input (the whole
input) strictly parses as the JSON value `1`; the scan only attempts
positions holding `{` or `[`. -/
theorem claim_C8_counterexample :
    extract_largest_json (lc ("1")) = .error (lc ("No JSON found in response")) ∧
    ∃ pre sub post, lc ("1") = pre ++ sub ++ post ∧
      ∃ v, rawDecode sub = some (v, ([] : LC)) :=
  ⟨rfl, [], lc ("1"), [], rfl, .num 1, rfl⟩

/-- C8 amended: the parser fails with the no-JSON-found error exactly
when no suffix of the input beginning with `{` or `[` decodes as a JSON
value under `raw_decode`; in particular `no json here` fails. -/
theorem claim_C8 :
    (∀ text : LC, extract_largest_json text = .error (lc ("No JSON found in response")) ↔
       ∀ p, p < text.length → isOpenBracket (text.getD p ' ') = true →
         rawDecode (text.drop p) = none) ∧
    extract_largest_json (lc ("no json here")) = .error (lc ("No JSON found in response")) := by
  refine ⟨?_, rfl⟩
  intro text
  have hscan : extract_json_values text = extract_json_values_fuel text.length text := rfl
  rw [← scan_empty_iff text.length text (le_refl _), ← hscan]
  unfold extract_largest_json
  cases hv : extract_json_values text with
  | nil => simp
  | cons w rest => simp

theorem claim_C8_witness :
    extract_largest_json (lc ("\x7bx [y")) = .error (lc ("No JSON found in response")) :=
  (claim_C8.1 (lc ("\x7bx [y"))).mpr (by
    intro p hp hb
    have hp5 : p < 5 := by simpa using hp
    interval_cases p <;> rfl)

theorem afterThink_length_lt : ∀ (s t : LC), afterThink s = some t → t.length < s.length := by
  intro s
  induction s with
  | nil => intro t h; exact absurd h (by simp [afterThink])
  | cons c rest ih =>
    intro t h
    simp only [afterThink] at h
    by_cases hp : thinkClose.isPrefixOf (c :: rest) = true
    · rw [if_pos hp] at h
      injection h with h'
      subst h'
      simp [List.length_drop]
      omega
    · rw [if_neg hp] at h
      exact Nat.lt_trans (ih t h) (by simp)

theorem afterThink_decomp : ∀ (s t : LC), afterThink s = some t →
    ∃ pre, s = pre ++ thinkClose ++ t := by
  intro s
  induction s with
  | nil => intro t h; exact absurd h (by simp [afterThink])
  | cons c rest ih =>
    intro t h
    simp only [afterThink] at h
    by_cases hp : thinkClose.isPrefixOf (c :: rest) = true
    · rw [if_pos hp] at h
      injection h with h'
      obtain ⟨u, hu⟩ := List.isPrefixOf_iff_prefix.mp hp
      refine ⟨[], ?_⟩
      have hdrop : List.drop 7 rest = u := by
        have h8 : List.drop 8 (c :: rest) = List.drop 7 rest := rfl
        rw [← h8, ← hu, show (8 : Nat) = thinkClose.length from rfl, List.drop_left]
      rw [← h', hdrop]
      simpa using hu.symm
    · rw [if_neg hp] at h
      obtain ⟨pre, hpre⟩ := ih t h
      exact ⟨c :: pre, by simp [hpre]⟩

theorem afterThink_none_imp : ∀ s : LC, afterThink s = none →
    ∀ pre post, s ≠ pre ++ thinkClose ++ post := by
  intro s
  induction s with
  | nil =>
    intro _ pre post heq
    have hl := congrArg List.length heq
    simp [thinkClose, lc] at hl
    omega
  | cons c rest ih =>
    intro h pre post heq
    simp only [afterThink] at h
    by_cases hp : thinkClose.isPrefixOf (c :: rest) = true
    · rw [if_pos hp] at h
      exact absurd h (by simp)
    · rw [if_neg hp] at h
      cases pre with
      | nil =>
        refine absurd (List.isPrefixOf_iff_prefix.mpr ⟨post, ?_⟩) hp
        simpa using heq.symm
      | cons d pre' =>
        rw [List.cons_append, List.cons_append] at heq
        injection heq with e1 e2
        exact ih h pre' post e2

theorem afterThink_none_iff (s : LC) : afterThink s = none ↔
    ∀ pre post, s ≠ pre ++ thinkClose ++ post := by
  constructor
  · exact afterThink_none_imp s
  · intro hall
    cases h : afterThink s with
    | none => rfl
    | some t =>
      obtain ⟨pre, hpre⟩ := afterThink_decomp s t h
      exact absurd hpre (hall pre t)

theorem stripFuel_spec : ∀ (fuel : Nat) (s : LC), s.length ≤ fuel →
    afterThink (stripThinkFuel fuel s) = none ∧
    (stripThinkFuel fuel s = s ∨ ∃ pre, s = pre ++ thinkClose ++ stripThinkFuel fuel s) := by
  intro fuel
  induction fuel with
  | zero =>
    intro s hlen
    have he : s = [] := List.eq_nil_of_length_eq_zero (Nat.le_zero.mp hlen)
    subst he
    exact ⟨rfl, .inl rfl⟩
  | succ f ih =>
    intro s hlen
    cases h : afterThink s with
    | none =>
      have e : stripThinkFuel (f + 1) s = s := by simp [stripThinkFuel, h]
      rw [e]
      exact ⟨h, .inl rfl⟩
    | some t =>
      have hlt := afterThink_length_lt s t h
      have e : stripThinkFuel (f + 1) s = stripThinkFuel f t := by simp [stripThinkFuel, h]
      obtain ⟨h1, h2⟩ := ih t (by omega)
      rw [e]
      refine ⟨h1, .inr ?_⟩
      obtain ⟨pre, hpre⟩ := afterThink_decomp s t h
      rcases h2 with h2 | ⟨pre', hpre'⟩
      · rw [h2]
        exact ⟨pre, hpre⟩
      · refine ⟨pre ++ thinkClose ++ pre', ?_⟩
        calc s = pre ++ thinkClose ++ t := hpre
          _ = pre ++ thinkClose ++ (pre' ++ thinkClose ++ stripThinkFuel f t) :=
              congrArg (fun x => pre ++ thinkClose ++ x) hpre'
          _ = (pre ++ thinkClose ++ pre') ++ thinkClose ++ stripThinkFuel f t := by
              simp [List.append_assoc]

/-- C10: the reasoning-markup strip removes everything up to and
including the last occurrence of `</think>` even with no opening tag —
a text without the closing tag is unchanged, and a text containing it is
reduced to a suffix that follows an occurrence of the tag and contains no
further occurrence, which is exactly the text after the last one; in
particular a JSON payload placed before an unmatched `</think>` is
discarded. -/
theorem claim_C10 :
    (∀ s : LC,
      ((∀ pre post, s ≠ pre ++ thinkClose ++ post) → stripThink s = s) ∧
      ((∃ pre post, s = pre ++ thinkClose ++ post) →
        (∃ pre, s = pre ++ thinkClose ++ stripThink s) ∧
        ∀ pre post, stripThink s ≠ pre ++ thinkClose ++ post)) ∧
    stripThink (lc ("\x7b\"tool_calls\": []\x7d </think> tail")) = lc (" tail") := by
  refine ⟨?_, rfl⟩
  intro s
  obtain ⟨h1, h2⟩ := stripFuel_spec s.length s (le_refl _)
  constructor
  · intro hno
    rcases h2 with h2 | ⟨pre, hpre⟩
    · exact h2
    · exact absurd hpre (hno pre _)
  · intro hocc
    refine ⟨?_, (afterThink_none_iff _).mp h1⟩
    rcases h2 with h2 | h2
    · obtain ⟨pre, post, hpp⟩ := hocc
      rw [h2] at h1
      exact absurd hpp ((afterThink_none_iff s).mp h1 pre post)
    · exact h2

theorem claim_C10_witness :
    stripThink (lc ("plain")) = lc ("plain") ∧
    (∃ pre, lc ("a</think>b") = pre ++ thinkClose ++ stripThink (lc ("a</think>b"))) ∧
    ∀ pre post, stripThink (lc ("a</think>b")) ≠ pre ++ thinkClose ++ post :=
  ⟨(claim_C10.1 (lc ("plain"))).1 ((afterThink_none_iff _).mp rfl),
   ((claim_C10.1 (lc ("a</think>b"))).2 ⟨['a'], ['b'], rfl⟩).1,
   ((claim_C10.1 (lc ("a</think>b"))).2 ⟨['a'], ['b'], rfl⟩).2⟩
